import Mathlib

/-!
Verification of the MrsWatson rendering pipeline.

Shallow embedding of `src/source/MrsWatson.c` (the orchestrator: configuration
checks and the main block-processing loop) and of `src/source/Plugin.h`.
Components of the repository whose implementations are not under `src/`
(SampleSource, MidiSequence, AudioClock, TaskTimer) are modelled from the
specification; each such definition's doc comment says so.
-/

namespace MrsWatson

/-- Return codes of `main`, from the `RETURN_CODE_*` constants used in
`src/source/MrsWatson.c`. -/
inductive ReturnCode where
  | success
  | notRun
  | invalidArgument
  | missingRequiredOption
  | ioError
  | pluginError
  | invalidPluginChain
  deriving DecidableEq, Repr

/-- The reason `main` aborted, one per `logError`/abort site in
`src/source/MrsWatson.c` lines 149-206. -/
inductive AbortReason where
  | noPluginsLoaded
  | chainInitFailed
  | noOutputSource
  | instrumentButNoMidiSource
  | noInputSource
  | inputOpenFailed
  | outputOpenFailed
  | midiOpenFailed
  | midiReadFailed
  deriving DecidableEq, Repr

/-- Modelled from the spec: the Plugin role tag (effect vs. instrument).
`src/source/MrsWatson.c:171` compares `headPlugin->pluginType` with
`PLUGIN_TYPE_INSTRUMENT`, a constant not declared in the (stale) copy of
`src/source/Plugin.h`; the role tag it requires is modelled from spec §2/§3
("tagged with a role (effect vs. instrument)"). -/
inductive PluginRole where
  | effect
  | instrument
  deriving DecidableEq, Repr

/-- One loaded plugin as the orchestrator sees it: a role tag and a name
(`pluginChain->plugins[i]->pluginName`). -/
structure PluginModel where
  role : PluginRole
  name : String
  deriving DecidableEq, Repr

/-- The input `SampleSource` as the loop consumes it: either a file-backed
source holding a finite number of frames, or the synthetic silence source
(`SAMPLE_SOURCE_TYPE_SILENCE`), which never reaches end-of-stream. -/
inductive InputKind where
  | file (frames : Nat)
  | silence
  deriving DecidableEq, Repr

/-- Modelled from the spec: `SampleSource.readBlock` (§4.2) "fills up to
`buffer.capacity` frames, returns the count actually filled"; the boolean
result consumed by `MrsWatson.c:222` (`finishedReading = !readSampleBlock`)
is whether a full block of `blocksize` frames was produced.  The silence
variant "never fails open/read and produces all-zero blocks indefinitely".
Returns (frames read, full-block flag, remaining source state). -/
def readSampleBlock : InputKind → Nat → Nat × Bool × InputKind
  | .file n, blocksize =>
      (min blocksize n, decide (blocksize ≤ n), .file (n - min blocksize n))
  | .silence, blocksize => (blocksize, true, .silence)

/-- Modelled from the spec: `MidiSequence` query (§4.3) — `query(start, length)`
"returns, in original sequence order, every event with
`start ≤ timestamp < start+length`" (half-open window).  The boolean result
consumed by `MrsWatson.c:228` is whether events remain at or beyond the end of
the window (false = the sequence is exhausted).  Events are represented by
their absolute sample timestamps. -/
def fillMidiEventsFromRange (seq : List Nat) (start blocksize : Nat) :
    List Nat × Bool :=
  (seq.filter (fun t => decide (start ≤ t) && decide (t < start + blocksize)),
   seq.any (fun t => decide (start + blocksize ≤ t)))

/-- State threaded through the main processing loop of
`src/source/MrsWatson.c` lines 219-239: the input source's remaining state,
the AudioClock's `currentFrame` (spec §4.1: a counter starting at 0), and
the `finishedReading` flag. -/
structure LoopState where
  input : InputKind
  clock : Nat
  finishedReading : Bool
  deriving DecidableEq, Repr

/-- Modelled from the spec: `advanceAudioClock` (AudioClock.c is not under
`src/`) — §4.1 "`advance(n)` adds `n` to the counter". -/
def advanceAudioClock (clock n : Nat) : Nat := clock + n

/-- Modelled from the spec: `getAudioClockCurrentSample` (AudioClock.c is
not under `src/`) — §4.1 "`currentFrame()` returns the absolute sample index
of the next block to be processed". -/
def getAudioClockCurrentSample (s : LoopState) : Nat := s.clock

/-- Observable I/O and processing actions of `main`, in program order. -/
inductive Effect where
  | openInputSource
  | openOutputSource
  | openMidiSource
  | readMidiEventsFromSource
  | readBlock
  | queryMidiRange
  | dispatchMidi
  | processAudio
  | writeBlock
  | advanceClock
  deriving DecidableEq, Repr

/-- What one iteration of the main loop did: the clock value at the start of
the block (the value read by the MIDI range query), the frames the input
source returned, the MIDI events delivered to the chain, and the ordered
effects performed. -/
structure BlockTrace where
  clockAtStart : Nat
  framesRead : Nat
  midiEvents : List Nat
  effects : List Effect
  deriving DecidableEq, Repr

/-- One iteration of the main processing loop, `src/source/MrsWatson.c`
lines 220-239: read a sample block (line 222; sets `finishedReading` when no
full block was produced), then — when a MIDI sequence is loaded — query the
events of the window `[clock, clock+blocksize)` and dispatch them, the MIDI
query's exhaustion flag overwriting `finishedReading` (lines 225-232); then
process the plugin chain's audio, write the output block (lines 234-236) and
advance the AudioClock by `blocksize` (line 238). -/
def loopBody (midiSequence : Option (List Nat)) (blocksize : Nat)
    (s : LoopState) : LoopState × BlockTrace :=
  let r := readSampleBlock s.input blocksize
  match midiSequence with
  | none =>
      ({ input := r.2.2, clock := advanceAudioClock s.clock blocksize,
         finishedReading := !r.2.1 },
       { clockAtStart := s.clock, framesRead := r.1, midiEvents := [],
         effects := [.readBlock, .processAudio, .writeBlock, .advanceClock] })
  | some seq =>
      let q := fillMidiEventsFromRange seq (getAudioClockCurrentSample s)
        blocksize
      ({ input := r.2.2, clock := advanceAudioClock s.clock blocksize,
         finishedReading := !q.2 },
       { clockAtStart := s.clock, framesRead := r.1,
         midiEvents := q.1,
         effects := [.readBlock, .queryMidiRange, .dispatchMidi,
                     .processAudio, .writeBlock, .advanceClock] })

/-- The main processing loop `while(!finishedReading) { ... }`
(`src/source/MrsWatson.c:220-239`), run with explicit fuel.  Returns the final
loop state and the per-block trace in block order. -/
def runLoop (midiSequence : Option (List Nat)) (blocksize : Nat) :
    Nat → LoopState → LoopState × List BlockTrace
  | 0, s => (s, [])
  | fuel + 1, s =>
      if s.finishedReading then (s, [])
      else
        let p := loopBody midiSequence blocksize s
        let q := runLoop midiSequence blocksize fuel p.1
        (q.1, p.2 :: q.2)

/-- Loop entry state: `finishedReading = false` (`MrsWatson.c:212`) and the
AudioClock at 0 (`initAudioClock`, spec §3: "starts at 0"). -/
def initState (input : InputKind) : LoopState :=
  { input := input, clock := 0, finishedReading := false }

/-- Largest event timestamp of a MIDI sequence (0 when empty). -/
def lastTimestamp (seq : List Nat) : Nat := seq.foldr max 0

/-- An upper bound on the number of loop iterations, used as fuel for
`runLoop`; for any positive blocksize the loop reaches `finishedReading`
well within this bound. -/
def mainFuel (input : InputKind) (midiSequence : Option (List Nat)) : Nat :=
  (match input with | .file n => n | .silence => 0)
    + (match midiSequence with | some seq => lastTimestamp seq | none => 0)
    + 2

/-- The per-block trace of the main loop, run with the standard fuel bound
from the initial state. -/
def theBlocks (midiSequence : Option (List Nat)) (blocksize : Nat)
    (input : InputKind) : List BlockTrace :=
  (runLoop midiSequence blocksize (mainFuel input midiSequence)
    (initState input)).2

/-- The loop state after the main loop, run with the standard fuel bound from
the initial state. -/
def finalLoopState (midiSequence : Option (List Nat)) (blocksize : Nat)
    (input : InputKind) : LoopState :=
  (runLoop midiSequence blocksize (mainFuel input midiSequence)
    (initState input)).1

/-- Configuration reaching `main` after option parsing
(`src/source/MrsWatson.c` lines 104-139), together with the outcomes of the
external collaborators (chain initialization, source opening/reading) that
`main` branches on. `inputSupplied = some n` stands for a user-supplied input
source holding `n` frames; `midiSupplied = some seq` for a user-supplied MIDI
source whose events have the timestamps `seq`. -/
structure RunConfig where
  plugins : List PluginModel
  inputSupplied : Option Nat
  outputSupplied : Bool
  midiSupplied : Option (List Nat)
  blocksize : Nat
  initChainOk : Bool
  inputOpenOk : Bool
  outputOpenOk : Bool
  midiOpenOk : Bool
  midiReadOk : Bool
  deriving DecidableEq, Repr

/-- Outcome of a `main` run: return code, the abort site taken (if any), the
I/O effects performed in order, the per-block loop trace, the input source
actually used by the loop, and the slot count of the TaskTimer constructed at
`MrsWatson.c:216` (when reached). -/
structure MainResult where
  code : ReturnCode
  abort : Option AbortReason
  effects : List Effect
  blocks : List BlockTrace
  effectiveInput : Option InputKind
  taskTimerSlots : Option Nat
  deriving DecidableEq, Repr

/-- A `MainResult` for a run that aborted before its loop. -/
def abortResult (code : ReturnCode) (reason : AbortReason)
    (effects : List Effect) : MainResult :=
  { code := code, abort := some reason, effects := effects, blocks := [],
    effectiveInput := none, taskTimerSlots := none }

/-- Input-source resolution, `src/source/MrsWatson.c` lines 167-182: when no
input source was supplied and the first plugin in the chain is an instrument,
the silence source is used as input and a MIDI source is required; when the
first plugin is not an instrument, the missing input source is an error. -/
def resolveInputSource (inputSupplied : Option Nat)
    (plugins : List PluginModel) (midiSupplied : Bool) :
    Except AbortReason InputKind :=
  match inputSupplied with
  | some frames => .ok (.file frames)
  | none =>
      match plugins.head? with
      | some headPlugin =>
          if headPlugin.role = .instrument then
            if midiSupplied then .ok .silence
            else .error .instrumentButNoMidiSource
          else .error .noInputSource
      | none => .error .noInputSource

/-- Function `main` from the point the options are parsed
(`src/source/MrsWatson.c` lines 148-276): verify the plugin chain (149-156),
verify output and input sources, defaulting a missing input to the silence
source when the head plugin is an instrument provided a MIDI source exists
(163-182), open the sources and bulk-load the MIDI events (185-206),
construct the TaskTimer with `numPlugins + 1` slots (216), run the main
processing loop (220-239) and return success (276).  The silence source's
open never fails (spec §4.2). -/
def mainAfterOptions (cfg : RunConfig) : MainResult :=
  if cfg.plugins.length = 0 then
    abortResult .missingRequiredOption .noPluginsLoaded []
  else if !cfg.initChainOk then
    abortResult .pluginError .chainInitFailed []
  else if !cfg.outputSupplied then
    abortResult .missingRequiredOption .noOutputSource []
  else
    match resolveInputSource cfg.inputSupplied cfg.plugins
        cfg.midiSupplied.isSome with
    | .error reason => abortResult .missingRequiredOption reason []
    | .ok input =>
        let inputOpens := match input with
          | .silence => true
          | .file _ => cfg.inputOpenOk
        if !inputOpens then
          abortResult .ioError .inputOpenFailed [.openInputSource]
        else if !cfg.outputOpenOk then
          abortResult .ioError .outputOpenFailed
            [.openInputSource, .openOutputSource]
        else
          let preEffects := [Effect.openInputSource, Effect.openOutputSource]
          match cfg.midiSupplied with
          | none =>
              let blocks := theBlocks none cfg.blocksize input
              { code := .success, abort := none,
                effects := preEffects ++ blocks.flatMap (·.effects),
                blocks := blocks, effectiveInput := some input,
                taskTimerSlots := some (cfg.plugins.length + 1) }
          | some seq =>
              if !cfg.midiOpenOk then
                abortResult .ioError .midiOpenFailed
                  (preEffects ++ [.openMidiSource])
              else if !cfg.midiReadOk then
                abortResult .ioError .midiReadFailed
                  (preEffects ++ [.openMidiSource, .readMidiEventsFromSource])
              else
                let blocks := theBlocks (some seq) cfg.blocksize input
                { code := .success, abort := none,
                  effects := preEffects
                    ++ [.openMidiSource, .readMidiEventsFromSource]
                    ++ blocks.flatMap (·.effects),
                  blocks := blocks, effectiveInput := some input,
                  taskTimerSlots := some (cfg.plugins.length + 1) }

/-- Modelled from the spec: TaskTimer (§4.6) — a fixed number of slots decided
at construction, an accumulated duration per slot, and the currently open
measurement window (slot id, window start time).  Times are abstract
monotone timestamps. -/
structure TaskTimer where
  numTasks : Nat
  totalTaskTimes : List Nat
  currentTask : Option (Nat × Nat)
  deriving DecidableEq, Repr

/-- Modelled from the spec: TaskTimer construction — `n` slots, all durations
zero, no open window. -/
def newTaskTimer (n : Nat) : TaskTimer :=
  { numTasks := n, totalTaskTimes := List.replicate n 0, currentTask := none }

/-- Add `d` to slot `i` of the duration table. -/
def addTime (l : List Nat) (i d : Nat) : List Nat := l.set i (l.getD i 0 + d)

/-- Modelled from the spec: `start(slot)` (§4.6) — "starting a new task
automatically closes the previous one's measurement window": the elapsed time
of the open window (if any) is accumulated to its slot, and a new window
opens for `taskId` at `now`. -/
def startTimingTask (tt : TaskTimer) (taskId now : Nat) : TaskTimer :=
  match tt.currentTask with
  | none => { tt with currentTask := some (taskId, now) }
  | some (prev, t0) =>
      { tt with totalTaskTimes := addTime tt.totalTaskTimes prev (now - t0),
                currentTask := some (taskId, now) }

/-- Modelled from the spec: `stopAll()` (§4.6) — "closes the final open
window at shutdown". -/
def stopTiming (tt : TaskTimer) (now : Nat) : TaskTimer :=
  match tt.currentTask with
  | none => tt
  | some (prev, t0) =>
      { tt with totalTaskTimes := addTime tt.totalTaskTimes prev (now - t0),
                currentTask := none }

/-- Total processing time as computed at shutdown,
`src/source/MrsWatson.c` lines 246-249: the sum over all slots of the
accumulated per-slot durations. -/
def totalProcessingTime (tt : TaskTimer) : Nat := tt.totalTaskTimes.sum

/-- Run a sequence of `startTimingTask` events (slot id, time) against a
timer. -/
def runTimer (tt : TaskTimer) (events : List (Nat × Nat)) : TaskTimer :=
  events.foldl (fun acc e => startTimingTask acc e.1 e.2) tt

/-- The TaskTimer constructed by `main`, `src/source/MrsWatson.c:216`:
`newTaskTimer(pluginChain->numPlugins + 1)`. -/
def taskTimerForRun (numPlugins : Nat) : TaskTimer := newTaskTimer (numPlugins + 1)

/-- The host's reserved slot, `src/source/MrsWatson.c:217`:
`taskTimer->numTasks - 1`. -/
def hostTaskId (tt : TaskTimer) : Nat := tt.numTasks - 1

end MrsWatson

namespace PluginH

/-- The `PluginType` enum declared in `src/source/Plugin.h` lines 15-18:
exactly the two values `PLUGIN_TYPE_INVALID` and `PLUGIN_TYPE_VST_2X`. -/
inductive PluginType where
  | PLUGIN_TYPE_INVALID
  | PLUGIN_TYPE_VST_2X
  deriving DecidableEq, Repr

/-- The `PluginMembers` struct declared in `src/source/Plugin.h` lines 23-31:
the type tag, the name, the two capability entry points (`open`, `process`),
and the opaque `extraData` handle.  `SampleBuffer` (declared outside `src/`)
is abstracted as a type parameter; the C `open` field is rendered `openFn`
(`open` is reserved in Lean); `PluginProcessFunc`, which mutates its buffer
in place, is rendered as a buffer transformer; `void*` handles as `Nat`. -/
structure PluginMembers (SampleBuffer : Type) where
  pluginType : PluginType
  pluginName : String
  openFn : String → Bool
  process : SampleBuffer → SampleBuffer
  extraData : Nat

end PluginH

namespace MrsWatson

/-! ## General lemmas about the main processing loop -/

lemma loopBody_fst_clock (midi : Option (List Nat)) (bs : Nat)
    (s : LoopState) : (loopBody midi bs s).1.clock = s.clock + bs := by
  cases midi <;> simp [loopBody, advanceAudioClock, getAudioClockCurrentSample]

lemma loopBody_snd_clockAtStart (midi : Option (List Nat)) (bs : Nat)
    (s : LoopState) : (loopBody midi bs s).2.clockAtStart = s.clock := by
  cases midi <;> simp [loopBody, advanceAudioClock, getAudioClockCurrentSample]

lemma runLoop_finished (midi : Option (List Nat)) (bs fuel : Nat)
    (s : LoopState) (h : s.finishedReading = true) :
    runLoop midi bs fuel s = (s, []) := by
  cases fuel <;> simp [runLoop, h]

lemma runLoop_succ (midi : Option (List Nat)) (bs fuel : Nat) (s : LoopState)
    (h : s.finishedReading = false) :
    runLoop midi bs (fuel + 1) s =
      ((runLoop midi bs fuel (loopBody midi bs s).1).1,
       (loopBody midi bs s).2
         :: (runLoop midi bs fuel (loopBody midi bs s).1).2) := by
  simp [runLoop, h]

/-- Block `k` of any loop run starts with the clock at
`s.clock + k * blocksize`, and the final clock advanced by `blocksize` once
per executed block. -/
lemma runLoop_clock_spec (midi : Option (List Nat)) (bs fuel : Nat) :
    ∀ s : LoopState,
      ((runLoop midi bs fuel s).2.map (·.clockAtStart)
        = (List.range (runLoop midi bs fuel s).2.length).map
            (fun k => s.clock + k * bs))
      ∧ (runLoop midi bs fuel s).1.clock
          = s.clock + (runLoop midi bs fuel s).2.length * bs := by
  induction fuel with
  | zero => intro s; simp [runLoop]
  | succ n ih =>
      intro s
      by_cases h : s.finishedReading = true
      · simp [runLoop_finished _ _ _ _ h]
      · rw [runLoop_succ midi bs n s (by simpa using h)]
        obtain ⟨ihmap, ihclock⟩ := ih (loopBody midi bs s).1
        constructor
        · simp only [List.map_cons, List.length_cons,
            List.range_succ_eq_map, List.map_map, loopBody_snd_clockAtStart,
            List.cons.injEq]
          refine ⟨by simp, ?_⟩
          rw [ihmap, loopBody_fst_clock]
          refine List.map_congr_left (fun k _ => ?_)
          simp only [Function.comp_apply, Nat.succ_eq_add_one]
          ring
        · simp only [List.length_cons]
          rw [ihclock, loopBody_fst_clock]
          ring

/-- In a run with a loaded MIDI sequence, every block's delivered events are
the half-open window query at that block's starting clock, and the block ran
the full body (read, MIDI query and dispatch, audio, write, clock advance). -/
lemma runLoop_blocks_midi (seq : List Nat) (bs fuel : Nat) :
    ∀ s : LoopState, ∀ b ∈ (runLoop (some seq) bs fuel s).2,
      b.midiEvents = (fillMidiEventsFromRange seq b.clockAtStart bs).1
      ∧ b.effects = [.readBlock, .queryMidiRange, .dispatchMidi,
                     .processAudio, .writeBlock, .advanceClock] := by
  induction fuel with
  | zero => intro s b hb; simp [runLoop] at hb
  | succ n ih =>
      intro s b hb
      by_cases h : s.finishedReading = true
      · rw [runLoop_finished _ _ _ _ h] at hb
        simp at hb
      · rw [runLoop_succ _ _ _ _ (by simpa using h)] at hb
        rcases List.mem_cons.mp hb with rfl | hb'
        · constructor <;> simp [loopBody, advanceAudioClock, getAudioClockCurrentSample]
        · exact ih _ b hb'

/-- In a run without a MIDI sequence, every block delivered no MIDI events
and ran the full body (read, audio, write, clock advance). -/
lemma runLoop_blocks_none (bs fuel : Nat) :
    ∀ s : LoopState, ∀ b ∈ (runLoop none bs fuel s).2,
      b.midiEvents = []
      ∧ b.effects = [.readBlock, .processAudio, .writeBlock, .advanceClock] := by
  induction fuel with
  | zero => intro s b hb; simp [runLoop] at hb
  | succ n ih =>
      intro s b hb
      by_cases h : s.finishedReading = true
      · rw [runLoop_finished _ _ _ _ h] at hb
        simp at hb
      · rw [runLoop_succ _ _ _ _ (by simpa using h)] at hb
        rcases List.mem_cons.mp hb with rfl | hb'
        · constructor <;> simp [loopBody, advanceAudioClock, getAudioClockCurrentSample]
        · exact ih _ b hb'

/-- A positive bound is met by some element of a list iff it is met by the
largest timestamp. -/
lemma exists_le_lastTimestamp (seq : List Nat) (m : Nat) (hm : 0 < m) :
    (∃ t ∈ seq, m ≤ t) ↔ m ≤ lastTimestamp seq := by
  induction seq with
  | nil => simp [lastTimestamp]; omega
  | cons a l ih =>
      simp only [List.mem_cons, lastTimestamp, List.foldr_cons]
      rw [le_max_iff]
      constructor
      · rintro ⟨t, (rfl | ht), hmt⟩
        · exact Or.inl hmt
        · exact Or.inr ((ih.mp) ⟨t, ht, hmt⟩)
      · rintro (hma | hml)
        · exact ⟨a, Or.inl rfl, hma⟩
        · obtain ⟨t, ht, hmt⟩ := ih.mpr hml
          exact ⟨t, Or.inr ht, hmt⟩

/-- Every timestamp in a sequence is at most the last timestamp. -/
lemma le_lastTimestamp (seq : List Nat) : ∀ t ∈ seq, t ≤ lastTimestamp seq := by
  induction seq with
  | nil => simp
  | cons a l ih =>
      intro t ht
      rcases List.mem_cons.mp ht with rfl | ht'
      · exact le_max_left _ _
      · exact le_trans (ih t ht') (le_max_right _ _)

/-- A file-backed run without MIDI: the loop performs `n / bs` full-block
reads followed by exactly one final partial read of `n % bs` frames, and
terminates with `finishedReading = true` exactly there. -/
lemma runLoop_file_frames (bs : Nat) (hbs : 0 < bs) :
    ∀ fuel n clock : Nat, n / bs + 1 ≤ fuel →
      ((runLoop none bs fuel
            ⟨.file n, clock, false⟩).2.map (·.framesRead)
          = List.replicate (n / bs) bs ++ [n % bs])
      ∧ (runLoop none bs fuel ⟨.file n, clock, false⟩).1.finishedReading
          = true := by
  intro fuel
  induction fuel with
  | zero => intro n clock h; exact absurd h (Nat.not_succ_le_zero _)
  | succ m ih =>
      intro n clock h
      rw [runLoop_succ none bs m _ rfl]
      by_cases hn : n < bs
      · have hdec : decide (bs ≤ n) = false := by
          simp only [decide_eq_false_iff_not]; omega
        have hmin : min bs n = n := by omega
        simp only [loopBody, advanceAudioClock, getAudioClockCurrentSample, readSampleBlock, hdec, hmin, Bool.not_false]
        rw [runLoop_finished none bs m _ rfl]
        simp [Nat.div_eq_of_lt hn, Nat.mod_eq_of_lt hn]
      · have hble : bs ≤ n := by omega
        have hdec : decide (bs ≤ n) = true := by
          simp only [decide_eq_true_eq]; omega
        have hmin : min bs n = bs := by omega
        have hdiv : n / bs = (n - bs) / bs + 1 := Nat.div_eq_sub_div hbs hble
        have hmod : n % bs = (n - bs) % bs := Nat.mod_eq_sub_mod hble
        simp only [loopBody, advanceAudioClock, getAudioClockCurrentSample, readSampleBlock, hdec, hmin, Bool.not_true]
        obtain ⟨ihmap, ihfin⟩ := ih (n - bs) (clock + bs) (by omega)
        refine ⟨?_, ihfin⟩
        simp only [List.map_cons, ihmap, hdiv, hmod,
          List.replicate_succ, List.cons_append]

/-- A run with a loaded MIDI sequence executes exactly
`(lastTimestamp - clock) / bs + 1` further blocks, whatever the input source
holds, and then terminates. -/
lemma runLoop_midi_spec (seq : List Nat) (bs : Nat) (hbs : 0 < bs) :
    ∀ fuel : Nat, ∀ s : LoopState, s.finishedReading = false →
      (lastTimestamp seq - s.clock) / bs + 1 ≤ fuel →
      ((runLoop (some seq) bs fuel s).2.length
          = (lastTimestamp seq - s.clock) / bs + 1)
      ∧ (runLoop (some seq) bs fuel s).1.finishedReading = true := by
  intro fuel
  induction fuel with
  | zero => intro s hs h; exact absurd h (Nat.not_succ_le_zero _)
  | succ m ih =>
      intro s hs h
      rw [runLoop_succ (some seq) bs m s hs]
      have hstate : (loopBody (some seq) bs s).1
          = ⟨(readSampleBlock s.input bs).2.2, s.clock + bs,
             !(fillMidiEventsFromRange seq s.clock bs).2⟩ := by
        simp [loopBody, advanceAudioClock, getAudioClockCurrentSample]
      have hany : (fillMidiEventsFromRange seq s.clock bs).2 = true
          ↔ s.clock + bs ≤ lastTimestamp seq := by
        simp only [fillMidiEventsFromRange, List.any_eq_true,
          decide_eq_true_eq]
        exact exists_le_lastTimestamp seq (s.clock + bs) (by omega)
      by_cases hlast : lastTimestamp seq < s.clock + bs
      · have hmore : (fillMidiEventsFromRange seq s.clock bs).2 = false := by
          rcases Bool.eq_false_or_eq_true
              (fillMidiEventsFromRange seq s.clock bs).2 with ht | hf
          · exact absurd (hany.mp ht) (by omega)
          · exact hf
        rw [hstate, hmore]
        rw [runLoop_finished (some seq) bs m _ rfl]
        have hz : (lastTimestamp seq - s.clock) / bs = 0 :=
          Nat.div_eq_of_lt (by omega)
        simp [hz]
      · have hmore : (fillMidiEventsFromRange seq s.clock bs).2 = true :=
          hany.mpr (by omega)
        rw [hstate, hmore]
        have hsub : lastTimestamp seq - (s.clock + bs)
            = lastTimestamp seq - s.clock - bs := by omega
        have hdiv : (lastTimestamp seq - s.clock) / bs
            = (lastTimestamp seq - s.clock - bs) / bs + 1 :=
          Nat.div_eq_sub_div hbs (by omega)
        have hfuel : (lastTimestamp seq
            - ((⟨(readSampleBlock s.input bs).2.2, s.clock + bs, !true⟩ :
                LoopState)).clock) / bs + 1 ≤ m := by
          show (lastTimestamp seq - (s.clock + bs)) / bs + 1 ≤ m
          rw [hsub]
          omega
        obtain ⟨ihlen, ihfin⟩ := ih
          ⟨(readSampleBlock s.input bs).2.2, s.clock + bs, !true⟩ rfl hfuel
        refine ⟨?_, ihfin⟩
        simp only [List.length_cons, ihlen]
        show (lastTimestamp seq - (s.clock + bs)) / bs + 1 + 1
            = (lastTimestamp seq - s.clock) / bs + 1
        rw [hsub]
        omega

/-- The exhaustion flag of the range query is exactly "some event lies at or
beyond the end of the window". -/
lemma fill_more_eq (seq : List Nat) (start bs : Nat) (hbs : 0 < bs) :
    (fillMidiEventsFromRange seq start bs).2
      = decide (start + bs ≤ lastTimestamp seq) := by
  have h1 := exists_le_lastTimestamp seq (start + bs) (by omega)
  rcases le_or_lt (start + bs) (lastTimestamp seq) with hle | hlt
  · have : seq.any (fun t => decide (start + bs ≤ t)) = true := by
      rw [List.any_eq_true]
      obtain ⟨t, ht, hmt⟩ := h1.mpr hle
      exact ⟨t, ht, by simpa using hmt⟩
    simp only [fillMidiEventsFromRange, this]
    simp [hle]
  · have : seq.any (fun t => decide (start + bs ≤ t)) = false := by
      rw [List.any_eq_false]
      intro t ht
      simp only [decide_eq_true_eq]
      intro hmt
      exact absurd (h1.mp ⟨t, ht, hmt⟩) (by omega)
    simp only [fillMidiEventsFromRange, this]
    simp
    omega

/-- Membership in a range-query result. -/
lemma mem_fill_iff (seq : List Nat) (c bs t : Nat) :
    t ∈ (fillMidiEventsFromRange seq c bs).1
      ↔ t ∈ seq ∧ c ≤ t ∧ t < c + bs := by
  simp [fillMidiEventsFromRange, List.mem_filter, and_assoc]

/-- Counting an element in a filtered list. -/
lemma count_filter_eq (l : List Nat) (p : Nat → Bool) (t : Nat) :
    (l.filter p).count t = if p t then l.count t else 0 := by
  induction l with
  | nil => simp
  | cons a l ih =>
      by_cases hpa : p a
      · by_cases hat : a = t
        · subst hat
          simp [List.filter_cons, hpa, List.count_cons, ih]
        · simp [List.filter_cons, hpa, List.count_cons, hat, ih]
      · by_cases hat : a = t
        · subst hat
          simp [List.filter_cons, hpa, List.count_cons, ih]
        · simp [List.filter_cons, hpa, List.count_cons, hat, ih]

/-- No block of a run whose clock is already past `t` delivers the event at
`t` (windows only advance). -/
lemma runLoop_countP_zero (seq : List Nat) (bs t : Nat) :
    ∀ fuel : Nat, ∀ s : LoopState, t < s.clock →
      (runLoop (some seq) bs fuel s).2.countP
        (fun b => decide (t ∈ b.midiEvents)) = 0 := by
  intro fuel
  induction fuel with
  | zero => intro s hc; simp [runLoop]
  | succ m ih =>
      intro s hc
      by_cases h : s.finishedReading = true
      · simp [runLoop_finished _ _ _ _ h]
      · rw [runLoop_succ _ _ _ _ (by simpa using h)]
        rw [List.countP_cons]
        have hhead : (decide (t ∈ (loopBody (some seq) bs s).2.midiEvents))
            = false := by
          simp only [loopBody, advanceAudioClock, getAudioClockCurrentSample, decide_eq_false_iff_not]
          rw [mem_fill_iff]
          omega
        have hrest := ih (loopBody (some seq) bs s).1
          (by rw [loopBody_fst_clock]; omega)
        simp [hhead, hrest]

/-- Each event of the sequence is delivered by exactly one block of a
terminating run whose clock has not yet passed it. -/
lemma runLoop_countP_one (seq : List Nat) (bs : Nat) (hbs : 0 < bs)
    (t : Nat) (ht : t ∈ seq) :
    ∀ fuel : Nat, ∀ s : LoopState, s.finishedReading = false →
      (lastTimestamp seq - s.clock) / bs + 1 ≤ fuel →
      s.clock ≤ t →
      (runLoop (some seq) bs fuel s).2.countP
        (fun b => decide (t ∈ b.midiEvents)) = 1 := by
  intro fuel
  induction fuel with
  | zero => intro s hs hf hc; exact absurd hf (Nat.not_succ_le_zero _)
  | succ m ih =>
      intro s hs hf hc
      rw [runLoop_succ _ _ _ _ hs, List.countP_cons]
      have hstate : (loopBody (some seq) bs s).1
          = ⟨(readSampleBlock s.input bs).2.2, s.clock + bs,
             !(fillMidiEventsFromRange seq s.clock bs).2⟩ := by
        simp [loopBody, advanceAudioClock, getAudioClockCurrentSample]
      have htle : t ≤ lastTimestamp seq := le_lastTimestamp seq t ht
      by_cases hlast : lastTimestamp seq < s.clock + bs
      · have hfin : (loopBody (some seq) bs s).1.finishedReading = true := by
          rw [hstate]
          show (!(fillMidiEventsFromRange seq s.clock bs).2) = true
          rw [fill_more_eq seq s.clock bs hbs]
          simp
          omega
        rw [runLoop_finished _ _ _ _ hfin]
        have hhead : (decide (t ∈ (loopBody (some seq) bs s).2.midiEvents))
            = true := by
          simp only [loopBody, advanceAudioClock, getAudioClockCurrentSample, decide_eq_true_eq]
          rw [mem_fill_iff]
          exact ⟨ht, hc, by omega⟩
        simp [hhead]
      · have hfin : (loopBody (some seq) bs s).1.finishedReading = false := by
          rw [hstate]
          show (!(fillMidiEventsFromRange seq s.clock bs).2) = false
          rw [fill_more_eq seq s.clock bs hbs]
          simp
          omega
        have hclock' : (loopBody (some seq) bs s).1.clock = s.clock + bs :=
          loopBody_fst_clock _ _ _
        have hsub : lastTimestamp seq - (s.clock + bs)
            = lastTimestamp seq - s.clock - bs := by omega
        have hdiv : (lastTimestamp seq - s.clock) / bs
            = (lastTimestamp seq - s.clock - bs) / bs + 1 :=
          Nat.div_eq_sub_div hbs (by omega)
        have hfuel' : (lastTimestamp seq
            - (loopBody (some seq) bs s).1.clock) / bs + 1 ≤ m := by
          rw [hclock', hsub]
          omega
        by_cases ht2 : t < s.clock + bs
        · have hhead : (decide (t ∈ (loopBody (some seq) bs s).2.midiEvents))
              = true := by
            simp only [loopBody, advanceAudioClock, getAudioClockCurrentSample, decide_eq_true_eq]
            rw [mem_fill_iff]
            exact ⟨ht, hc, ht2⟩
          have hrest := runLoop_countP_zero seq bs t m
            (loopBody (some seq) bs s).1 (by omega)
          simp [hhead, hrest]
        · have hhead : (decide (t ∈ (loopBody (some seq) bs s).2.midiEvents))
              = false := by
            simp only [loopBody, advanceAudioClock, getAudioClockCurrentSample, decide_eq_false_iff_not]
            rw [mem_fill_iff]
            omega
          have hrest := ih (loopBody (some seq) bs s).1 hfin hfuel'
            (by omega)
          simp [hhead, hrest]

/-- The multiset of events delivered by a terminating run from clock `c` is
exactly the events of the sequence with timestamp `≥ c`. -/
lemma runLoop_flat_count (seq : List Nat) (bs : Nat) (hbs : 0 < bs)
    (t : Nat) :
    ∀ fuel : Nat, ∀ s : LoopState, s.finishedReading = false →
      (lastTimestamp seq - s.clock) / bs + 1 ≤ fuel →
      ((runLoop (some seq) bs fuel s).2.flatMap (·.midiEvents)).count t
        = (seq.filter (fun x => decide (s.clock ≤ x))).count t := by
  intro fuel
  induction fuel with
  | zero => intro s hs hf; exact absurd hf (Nat.not_succ_le_zero _)
  | succ m ih =>
      intro s hs hf
      rw [runLoop_succ _ _ _ _ hs]
      have hhead : (loopBody (some seq) bs s).2.midiEvents
          = seq.filter
              (fun x => decide (s.clock ≤ x) && decide (x < s.clock + bs)) := by
        simp [loopBody, fillMidiEventsFromRange, advanceAudioClock, getAudioClockCurrentSample]
      have hstate : (loopBody (some seq) bs s).1
          = ⟨(readSampleBlock s.input bs).2.2, s.clock + bs,
             !(fillMidiEventsFromRange seq s.clock bs).2⟩ := by
        simp [loopBody, advanceAudioClock, getAudioClockCurrentSample]
      have hcount := count_filter_eq seq
        (fun x => decide (s.clock ≤ x) && decide (x < s.clock + bs)) t
      have hcount2 := count_filter_eq seq (fun x => decide (s.clock ≤ x)) t
      have hnotin : lastTimestamp seq < t → seq.count t = 0 := by
        intro hgt
        rw [List.count_eq_zero]
        intro hmem
        exact absurd (le_lastTimestamp seq t hmem) (by omega)
      by_cases hlast : lastTimestamp seq < s.clock + bs
      · have hfin : (loopBody (some seq) bs s).1.finishedReading = true := by
          rw [hstate]
          show (!(fillMidiEventsFromRange seq s.clock bs).2) = true
          rw [fill_more_eq seq s.clock bs hbs]
          simp
          omega
        rw [runLoop_finished _ _ _ _ hfin]
        simp only [List.flatMap_cons, List.flatMap_nil, List.append_nil,
          hhead]
        rw [hcount]
        rw [hcount2]
        split_ifs with h1 h2 h3
        all_goals try simp_all
        all_goals omega
      · have hfin : (loopBody (some seq) bs s).1.finishedReading = false := by
          rw [hstate]
          show (!(fillMidiEventsFromRange seq s.clock bs).2) = false
          rw [fill_more_eq seq s.clock bs hbs]
          simp
          omega
        have hclock' : (loopBody (some seq) bs s).1.clock = s.clock + bs :=
          loopBody_fst_clock _ _ _
        have hsub : lastTimestamp seq - (s.clock + bs)
            = lastTimestamp seq - s.clock - bs := by omega
        have hdiv : (lastTimestamp seq - s.clock) / bs
            = (lastTimestamp seq - s.clock - bs) / bs + 1 :=
          Nat.div_eq_sub_div hbs (by omega)
        have hfuel' : (lastTimestamp seq
            - (loopBody (some seq) bs s).1.clock) / bs + 1 ≤ m := by
          rw [hclock', hsub]
          omega
        have hrest := ih (loopBody (some seq) bs s).1 hfin hfuel'
        rw [hclock'] at hrest
        have hcount3 := count_filter_eq seq
          (fun x => decide (s.clock + bs ≤ x)) t
        simp only [List.flatMap_cons, List.count_append, hhead, hrest]
        rw [hcount, hcount2, hcount3]
        split_ifs with h1 h2 h3 h4 <;> simp_all <;> omega

/-! ## Lemmas about the TaskTimer model -/

lemma addTime_length (l : List Nat) (i d : Nat) :
    (addTime l i d).length = l.length := by
  simp [addTime]

lemma addTime_sum (l : List Nat) (i d : Nat) (h : i < l.length) :
    (addTime l i d).sum = l.sum + d := by
  induction l generalizing i with
  | nil => simp at h
  | cons a l ih =>
      cases i with
      | zero => simp [addTime]; omega
      | succ j =>
          have hj : j < l.length := by simpa using h
          have := ih j hj
          simp only [addTime, List.set_cons_succ, List.getD_cons_succ,
            List.sum_cons] at *
          omega

/-- Running a sequence of `startTimingTask` events with monotone times
against a timer with an open window: the window chain closes exactly; the
slot count and table length never change; and the accumulated total grows by
exactly the elapsed time from the first window's start to the last event. -/
lemma runTimer_spec (events : List (Nat × Nat)) :
    ∀ (tt : TaskTimer) (id t0 : Nat),
      tt.currentTask = some (id, t0) →
      id < tt.totalTaskTimes.length →
      (∀ e ∈ events, e.1 < tt.totalTaskTimes.length) →
      List.Chain (fun a b => a.2 ≤ b.2) (id, t0) events →
      ((runTimer tt events).currentTask
          = some (events.getLast?.getD (id, t0)))
      ∧ t0 ≤ (events.getLast?.getD (id, t0)).2
      ∧ (events.getLast?.getD (id, t0)).1 < tt.totalTaskTimes.length
      ∧ (runTimer tt events).totalTaskTimes.length = tt.totalTaskTimes.length
      ∧ (runTimer tt events).numTasks = tt.numTasks
      ∧ (runTimer tt events).totalTaskTimes.sum
          = tt.totalTaskTimes.sum + ((events.getLast?.getD (id, t0)).2 - t0) := by
  induction events with
  | nil =>
      intro tt id t0 hcur hid hids hchain
      simp [runTimer, hcur, hid]
  | cons e rest ih =>
      intro tt id t0 hcur hid hids hchain
      rw [List.chain_cons] at hchain
      obtain ⟨hle, hchain'⟩ := hchain
      have hstep : startTimingTask tt e.1 e.2
          = { tt with totalTaskTimes := addTime tt.totalTaskTimes id (e.2 - t0),
                      currentTask := some (e.1, e.2) } := by
        simp [startTimingTask, hcur]
      have hrun : runTimer tt (e :: rest)
          = runTimer (startTimingTask tt e.1 e.2) rest := by
        simp [runTimer]
      have hlen : (startTimingTask tt e.1 e.2).totalTaskTimes.length
          = tt.totalTaskTimes.length := by
        rw [hstep]
        exact addTime_length _ _ _
      have hcur' : (startTimingTask tt e.1 e.2).currentTask = some (e.1, e.2) := by
        rw [hstep]
      have hid' : e.1 < (startTimingTask tt e.1 e.2).totalTaskTimes.length := by
        rw [hlen]
        exact hids e (List.mem_cons_self _ _)
      have hids' : ∀ x ∈ rest,
          x.1 < (startTimingTask tt e.1 e.2).totalTaskTimes.length := by
        intro x hx
        rw [hlen]
        exact hids x (List.mem_cons_of_mem _ hx)
      have hle' : t0 ≤ e.2 := hle
      obtain ⟨c1, c2, c3, c4, c5, c6⟩ :=
        ih (startTimingTask tt e.1 e.2) e.1 e.2 hcur' hid' hids' hchain'
      have hgetLast : (e :: rest).getLast?.getD (id, t0)
          = rest.getLast?.getD (e.1, e.2) := by
        cases rest with
        | nil => simp
        | cons r rs =>
            rw [List.getLast?_cons_cons]
            cases hx : (r :: rs).getLast? with
            | none => simp at hx
            | some x => simp
      rw [hrun, hgetLast]
      have hnum : (startTimingTask tt e.1 e.2).numTasks = tt.numTasks := by
        rw [hstep]
      have hsum : (startTimingTask tt e.1 e.2).totalTaskTimes.sum
          = tt.totalTaskTimes.sum + (e.2 - t0) := by
        rw [hstep]
        exact addTime_sum _ _ _ hid
      refine ⟨c1, by omega, by rw [← hlen]; exact c3, by rw [c4, hlen],
        by rw [c5, hnum], ?_⟩
      rw [c6, hsum]
      omega

/-- Per-block read/write effect counts are equal on every trace. -/
lemma flat_count_read_write (blocks : List BlockTrace)
    (h : ∀ b ∈ blocks,
      b.effects.count Effect.readBlock = b.effects.count Effect.writeBlock) :
    (blocks.flatMap (·.effects)).count Effect.readBlock
      = (blocks.flatMap (·.effects)).count Effect.writeBlock := by
  induction blocks with
  | nil => simp
  | cons b l ih =>
      simp only [List.flatMap_cons, List.count_append]
      rw [h b (List.mem_cons_self _ _),
        ih (fun x hx => h x (List.mem_cons_of_mem _ hx))]

end MrsWatson

namespace MrsWatson

/-! ## Claim theorems -/

/-- C8: the spec describes every Plugin as carrying a role tag distinguishing
instrument from effect plugins with capabilities open, process-audio,
process-MIDI and get-info; but the `PluginType` tag declared in
`src/source/Plugin.h` has only the two format values `PLUGIN_TYPE_INVALID`
and `PLUGIN_TYPE_VST_2X` — no instrument or effect role exists in it, so the
`PLUGIN_TYPE_INSTRUMENT` comparison at `src/source/MrsWatson.c:171` refers to
a constant that header never declares (the header is a stale version). -/
theorem c8_pluginType_no_role_tag :
    ∀ t : PluginH.PluginType,
      t = PluginH.PluginType.PLUGIN_TYPE_INVALID
      ∨ t = PluginH.PluginType.PLUGIN_TYPE_VST_2X := by
  intro t
  cases t
  · exact Or.inl rfl
  · exact Or.inr rfl

/-- C4: with zero plugins in the chain, `main` aborts with the
missing-required-resource status before performing any I/O: no source is
opened, read or written, and no block is processed. -/
theorem c4_no_plugins_aborts_before_io (cfg : RunConfig)
    (h : cfg.plugins = []) :
    (mainAfterOptions cfg).code = ReturnCode.missingRequiredOption
    ∧ (mainAfterOptions cfg).abort = some AbortReason.noPluginsLoaded
    ∧ (mainAfterOptions cfg).effects = []
    ∧ (mainAfterOptions cfg).blocks = [] := by
  simp [mainAfterOptions, h, abortResult]

/-- C4 witness. -/
theorem c4_witness :
    (mainAfterOptions
        ⟨[], some 5, true, none, 4, true, true, true, true, true⟩).code
      = ReturnCode.missingRequiredOption
    ∧ (mainAfterOptions
        ⟨[], some 5, true, none, 4, true, true, true, true, true⟩).abort
      = some AbortReason.noPluginsLoaded
    ∧ (mainAfterOptions
        ⟨[], some 5, true, none, 4, true, true, true, true, true⟩).effects
      = []
    ∧ (mainAfterOptions
        ⟨[], some 5, true, none, 4, true, true, true, true, true⟩).blocks
      = [] :=
  c4_no_plugins_aborts_before_io _ rfl

/-- C5: when no input source is supplied: if the chain's first plugin is an
instrument, the input defaults to the silence source and a MIDI source is
mandatory — without one the run aborts with the missing-required-resource
code citing the missing MIDI source (before any I/O); if the first plugin is
not an instrument, the run aborts citing the missing input source. -/
theorem c5_missing_input_policy (cfg : RunConfig) (headPlugin : PluginModel)
    (rest : List PluginModel)
    (hplug : cfg.plugins = headPlugin :: rest)
    (hinput : cfg.inputSupplied = none)
    (hinit : cfg.initChainOk = true)
    (hout : cfg.outputSupplied = true) :
    (headPlugin.role = PluginRole.instrument → cfg.midiSupplied = none →
        (mainAfterOptions cfg).code = ReturnCode.missingRequiredOption
        ∧ (mainAfterOptions cfg).abort
            = some AbortReason.instrumentButNoMidiSource
        ∧ (mainAfterOptions cfg).effects = [])
    ∧ (headPlugin.role = PluginRole.instrument → cfg.midiSupplied.isSome →
        resolveInputSource cfg.inputSupplied cfg.plugins
          cfg.midiSupplied.isSome = Except.ok InputKind.silence)
    ∧ (headPlugin.role ≠ PluginRole.instrument →
        (mainAfterOptions cfg).code = ReturnCode.missingRequiredOption
        ∧ (mainAfterOptions cfg).abort = some AbortReason.noInputSource
        ∧ (mainAfterOptions cfg).effects = []) := by
  refine ⟨?_, ?_, ?_⟩
  · intro hrole hmidi
    simp [mainAfterOptions, resolveInputSource, hplug, hinput, hinit, hout,
      hrole, hmidi, abortResult]
  · intro hrole hmidi
    simp [resolveInputSource, hplug, hinput, hrole, hmidi]
  · intro hrole
    simp [mainAfterOptions, resolveInputSource, hplug, hinput, hinit, hout,
      hrole, abortResult]

/-- C5 witness: an instrument-led chain without MIDI aborts citing the MIDI
source; with MIDI supplied the silence source is resolved as input. -/
theorem c5_witness :
    ((mainAfterOptions ⟨[⟨.instrument, "synth"⟩], none, true, none, 4,
        true, true, true, true, true⟩).abort
      = some AbortReason.instrumentButNoMidiSource)
    ∧ resolveInputSource none [⟨PluginRole.instrument, "synth"⟩] true
        = Except.ok InputKind.silence :=
  ⟨(c5_missing_input_policy _ _ [] rfl rfl rfl rfl).1 rfl rfl |>.2.1,
   by
    have h := (c5_missing_input_policy
        ⟨[⟨.instrument, "synth"⟩], none, true, some [0], 4,
          true, true, true, true, true⟩ _ [] rfl rfl rfl rfl).2.1 rfl
        (by decide)
    simpa using h⟩

/-- C3: with an input source of exactly 1000 frames and blocksize 256, the
loop performs exactly 4 reads returning 256, 256, 256 and 232 frames;
`finishedReading` becomes true only on the fourth, partial read, and the
loop terminates right after that block. -/
theorem c3_scenario_1000_frames_256_blocksize :
    ((theBlocks none 256 (InputKind.file 1000)).map (·.framesRead)
        = [256, 256, 256, 232])
    ∧ ((theBlocks none 256 (InputKind.file 1000)).flatMap
        (·.effects)).count Effect.readBlock = 4
    ∧ (finalLoopState none 256 (InputKind.file 1000)).finishedReading
        = true := by
  refine ⟨?_, ?_, ?_⟩ <;> decide

/-- The success path of `main` without a MIDI source: the run reaches the
loop and returns success. -/
lemma mainAfterOptions_success_nomidi (cfg : RunConfig) (n : Nat)
    (hplug : cfg.plugins ≠ [])
    (hinit : cfg.initChainOk = true)
    (hout : cfg.outputSupplied = true)
    (hin : cfg.inputSupplied = some n)
    (hiopen : cfg.inputOpenOk = true)
    (hoopen : cfg.outputOpenOk = true)
    (hmidi : cfg.midiSupplied = none) :
    (mainAfterOptions cfg).code = ReturnCode.success
    ∧ (mainAfterOptions cfg).abort = none
    ∧ (mainAfterOptions cfg).blocks
        = theBlocks none cfg.blocksize (InputKind.file n) := by
  simp [mainAfterOptions, resolveInputSource, hplug, hinit, hout, hin,
    hiopen, hoopen, hmidi]

/-- C2 counterexample: the claim "the loop terminates exactly when the input
SampleSource signals end-of-stream" fails when a MIDI sequence is loaded.
With an input source of 1000 frames, blocksize 256 and the MIDI sequence
`[0]`, the loop terminates after a single block in which the input returned
a full 256-frame block (so end-of-stream was never signalled): the MIDI
query's exhaustion overrode the input's flag (`MrsWatson.c:228`). -/
theorem c2_counterexample :
    ((finalLoopState (some [0]) 256 (InputKind.file 1000)).finishedReading
        = true)
    ∧ ((theBlocks (some [0]) 256 (InputKind.file 1000)).map (·.framesRead)
        = [256]) := by
  refine ⟨?_, ?_⟩ <;> decide

/-- C2 (amended): for every run in which no MIDI sequence is loaded, the
main loop terminates exactly when the input source fails to deliver a full
block: every block before the last reads a full `blocksize` of frames, the
last reads the `n % blocksize` remainder, and this end-of-stream is nominal
— `main` completes with the success status. (When a MIDI sequence is loaded
the MIDI query's exhaustion signal overrides the input's end-of-stream,
see C9.) -/
theorem c2_amended_eos_is_nominal_termination (cfg : RunConfig) (n : Nat)
    (hplug : cfg.plugins ≠ [])
    (hinit : cfg.initChainOk = true)
    (hout : cfg.outputSupplied = true)
    (hin : cfg.inputSupplied = some n)
    (hiopen : cfg.inputOpenOk = true)
    (hoopen : cfg.outputOpenOk = true)
    (hmidi : cfg.midiSupplied = none)
    (hbs : 0 < cfg.blocksize) :
    (mainAfterOptions cfg).code = ReturnCode.success
    ∧ (mainAfterOptions cfg).abort = none
    ∧ ((mainAfterOptions cfg).blocks.map (·.framesRead)
        = List.replicate (n / cfg.blocksize) cfg.blocksize
            ++ [n % cfg.blocksize]) := by
  obtain ⟨hc, ha, hb⟩ := mainAfterOptions_success_nomidi cfg n hplug hinit
    hout hin hiopen hoopen hmidi
  refine ⟨hc, ha, ?_⟩
  rw [hb]
  have hfuel : n / cfg.blocksize + 1 ≤ mainFuel (InputKind.file n) none := by
    show n / cfg.blocksize + 1 ≤ n + 0 + 2
    have := Nat.div_le_self n cfg.blocksize
    omega
  exact (runLoop_file_frames cfg.blocksize hbs
    (mainFuel (InputKind.file n) none) n 0 hfuel).1

/-- C2 amended witness. -/
theorem c2_amended_witness :
    (mainAfterOptions ⟨[⟨PluginRole.effect, "delay"⟩], some 1000, true,
        none, 256, true, true, true, true, true⟩).code = ReturnCode.success
    ∧ ((mainAfterOptions ⟨[⟨PluginRole.effect, "delay"⟩], some 1000, true,
        none, 256, true, true, true, true, true⟩).blocks.map (·.framesRead)
        = [256, 256, 256, 232]) := by
  have h := c2_amended_eos_is_nominal_termination
    ⟨[⟨PluginRole.effect, "delay"⟩], some 1000, true, none, 256,
      true, true, true, true, true⟩ 1000
    (by decide) rfl rfl rfl rfl rfl rfl (by decide)
  refine ⟨h.1, ?_⟩
  rw [h.2.2]
  decide

/-- C6: the AudioClock starts at 0, block `k` of every run begins (and its
MIDI range query reads) clock value `k * blocksize`, the clock after the run
equals `blocks * blocksize` (one advance of `blocksize` per block), and the
per-block clock values are monotonically non-decreasing. -/
theorem c6_audio_clock_invariant (midi : Option (List Nat)) (bs : Nat)
    (input : InputKind) :
    (initState input).clock = 0
    ∧ ((theBlocks midi bs input).map (·.clockAtStart)
        = (List.range (theBlocks midi bs input).length).map (· * bs))
    ∧ (finalLoopState midi bs input).clock
        = (theBlocks midi bs input).length * bs
    ∧ List.Pairwise (· ≤ ·)
        ((theBlocks midi bs input).map (·.clockAtStart)) := by
  obtain ⟨hmap, hclock⟩ := runLoop_clock_spec midi bs (mainFuel input midi)
    (initState input)
  have h0 : (initState input).clock = 0 := rfl
  rw [h0] at hmap hclock
  have hmap' : (theBlocks midi bs input).map (·.clockAtStart)
      = (List.range (theBlocks midi bs input).length).map (· * bs) := by
    simp only [theBlocks]
    simpa using hmap
  refine ⟨rfl, hmap', ?_, ?_⟩
  · simp only [theBlocks, finalLoopState]
    simpa using hclock
  · rw [hmap', List.pairwise_map]
    exact (List.pairwise_lt_range _).imp
      (fun h => Nat.mul_le_mul_right bs (le_of_lt h))

/-- C9: when a MIDI sequence is loaded, each iteration's `finishedReading`
is overwritten by the MIDI range query's result, so the number of blocks
executed is `lastTimestamp / blocksize + 1` — a function of the MIDI
sequence alone, whatever the input source held (the loop continues past
input end-of-stream while events remain and stops on MIDI exhaustion). -/
theorem c9_midi_query_overrides_eos (seq : List Nat) (input : InputKind)
    (bs : Nat) (hbs : 0 < bs) :
    (∀ s : LoopState, (loopBody (some seq) bs s).1.finishedReading
        = !(fillMidiEventsFromRange seq s.clock bs).2)
    ∧ (theBlocks (some seq) bs input).length = lastTimestamp seq / bs + 1
    ∧ (finalLoopState (some seq) bs input).finishedReading = true := by
  have hfuel : (lastTimestamp seq - (initState input).clock) / bs + 1
      ≤ mainFuel input (some seq) := by
    show (lastTimestamp seq - 0) / bs + 1 ≤ _
    have hd := Nat.div_le_self (lastTimestamp seq) bs
    cases input <;> simp [mainFuel] <;> omega
  obtain ⟨hlen, hfin⟩ := runLoop_midi_spec seq bs hbs
    (mainFuel input (some seq)) (initState input) rfl hfuel
  refine ⟨fun s => by simp [loopBody, advanceAudioClock, getAudioClockCurrentSample], ?_, hfin⟩
  simp only [theBlocks]
  rw [hlen]
  simp [initState]

/-- C9 witness: events at 0, 300 and 600 with blocksize 256 force three
blocks even though the input source is empty (end-of-stream from the first
read). -/
theorem c9_witness :
    (0 < 256)
    ∧ (theBlocks (some [0, 300, 600]) 256 (InputKind.file 0)).length = 3
    ∧ (finalLoopState (some [0, 300, 600]) 256
        (InputKind.file 0)).finishedReading = true := by
  have h := c9_midi_query_overrides_eos [0, 300, 600] (InputKind.file 0) 256
    (by decide)
  refine ⟨by decide, ?_, h.2.2⟩
  rw [h.2.1]
  decide

/-- C10: every iteration — including the one in which the input signals
end-of-stream — runs the full block body: each block's effect list holds
exactly one read, one chain audio-processing pass and one write, hence the
run performs as many `writeSampleBlock` calls as `readSampleBlock` calls. -/
theorem c10_writes_equal_reads (midi : Option (List Nat)) (bs fuel : Nat)
    (s : LoopState) :
    (((runLoop midi bs fuel s).2.flatMap (·.effects)).count Effect.readBlock
      = ((runLoop midi bs fuel s).2.flatMap (·.effects)).count
          Effect.writeBlock)
    ∧ ∀ b ∈ (runLoop midi bs fuel s).2,
        b.effects.count Effect.readBlock = 1
        ∧ b.effects.count Effect.processAudio = 1
        ∧ b.effects.count Effect.writeBlock = 1 := by
  have hper : ∀ b ∈ (runLoop midi bs fuel s).2,
      b.effects.count Effect.readBlock = 1
      ∧ b.effects.count Effect.processAudio = 1
      ∧ b.effects.count Effect.writeBlock = 1 := by
    cases midi with
    | none =>
        intro b hb
        obtain ⟨-, he⟩ := runLoop_blocks_none bs fuel s b hb
        rw [he]
        exact ⟨by decide, by decide, by decide⟩
    | some seq =>
        intro b hb
        obtain ⟨-, he⟩ := runLoop_blocks_midi seq bs fuel s b hb
        rw [he]
        exact ⟨by decide, by decide, by decide⟩
  refine ⟨flat_count_read_write _ (fun b hb => ?_), hper⟩
  obtain ⟨h1, -, h3⟩ := hper b hb
  omega

/-- C10 witness. -/
theorem c10_witness :
    ((theBlocks none 256 (InputKind.file 1000)).flatMap (·.effects)).count
        Effect.readBlock
      = ((theBlocks none 256 (InputKind.file 1000)).flatMap
          (·.effects)).count Effect.writeBlock :=
  (c10_writes_equal_reads none 256 (mainFuel (InputKind.file 1000) none)
    (initState (InputKind.file 1000))).1

/-- C1: in every run with a loaded MIDI sequence, the per-block range
queries use the consecutive half-open windows `[k*bs, (k+1)*bs)` starting at
0; every event appears in exactly one block's query result, the multiset of
delivered events is exactly the sequence (no duplication, no loss over
`[0, lastTimestamp]`), and an event whose timestamp equals
`blockStart + blocksize` is never in that block's own result — it falls in
the next window. -/
theorem c1_midi_window_partition (seq : List Nat) (input : InputKind)
    (bs : Nat) (hbs : 0 < bs) :
    ((theBlocks (some seq) bs input).map (·.clockAtStart)
        = (List.range (theBlocks (some seq) bs input).length).map (· * bs))
    ∧ (∀ b ∈ theBlocks (some seq) bs input,
        b.midiEvents = seq.filter
          (fun t => decide (b.clockAtStart ≤ t)
            && decide (t < b.clockAtStart + bs)))
    ∧ (∀ t ∈ seq, (theBlocks (some seq) bs input).countP
        (fun b => decide (t ∈ b.midiEvents)) = 1)
    ∧ (∀ t : Nat, ((theBlocks (some seq) bs input).flatMap
        (·.midiEvents)).count t = seq.count t)
    ∧ (∀ b ∈ theBlocks (some seq) bs input,
        b.clockAtStart + bs ∉ b.midiEvents) := by
  have hfuel : (lastTimestamp seq - (initState input).clock) / bs + 1
      ≤ mainFuel input (some seq) := by
    show (lastTimestamp seq - 0) / bs + 1 ≤ _
    have hd := Nat.div_le_self (lastTimestamp seq) bs
    cases input <;> simp [mainFuel] <;> omega
  refine ⟨?_, ?_, ?_, ?_, ?_⟩
  · obtain ⟨hmap, -⟩ := runLoop_clock_spec (some seq) bs
      (mainFuel input (some seq)) (initState input)
    have h0 : (initState input).clock = 0 := rfl
    rw [h0] at hmap
    simp only [theBlocks]
    simpa using hmap
  · intro b hb
    have hm := (runLoop_blocks_midi seq bs (mainFuel input (some seq))
      (initState input) b hb).1
    rw [hm]
    simp [fillMidiEventsFromRange]
  · intro t ht
    exact runLoop_countP_one seq bs hbs t ht (mainFuel input (some seq))
      (initState input) rfl hfuel (Nat.zero_le t)
  · intro t
    have h := runLoop_flat_count seq bs hbs t (mainFuel input (some seq))
      (initState input) rfl hfuel
    simp only [theBlocks]
    rw [h]
    have hall : seq.filter
        (fun x => decide ((initState input).clock ≤ x)) = seq := by
      rw [List.filter_eq_self]
      intro a ha
      simp [initState]
    rw [hall]
  · intro b hb
    have hm := (runLoop_blocks_midi seq bs (mainFuel input (some seq))
      (initState input) b hb).1
    rw [hm]
    intro hmem
    rw [mem_fill_iff] at hmem
    omega

/-- C1 witness: scenario D — events at 0, 300 and 600 with blocksize 256. -/
theorem c1_witness :
    (0 < 256)
    ∧ ((theBlocks (some [0, 300, 600]) 256 (InputKind.file 0)).countP
        (fun b => decide (300 ∈ b.midiEvents)) = 1)
    ∧ (((theBlocks (some [0, 300, 600]) 256 (InputKind.file 0)).flatMap
        (·.midiEvents)).count 600 = [0, 300, 600].count 600) :=
  ⟨by decide,
   (c1_midi_window_partition [0, 300, 600] (InputKind.file 0) 256
      (by decide)).2.2.1 300 (by decide),
   (c1_midi_window_partition [0, 300, 600] (InputKind.file 0) 256
      (by decide)).2.2.2.1 600⟩

/-- C7: the TaskTimer is constructed with exactly `numPlugins + 1` slots,
the last reserved for the host; the slot count is unchanged by the whole
run; and the total processing time computed at shutdown (the sum over all
slots of the accumulated durations, `MrsWatson.c:246-249`) equals the
measured duration from the first task start to the final `stopTiming` —
the bracketing attributes every moment to exactly one slot. -/
theorem c7_task_timer_exact_sum (numPlugins firstId t0 T : Nat)
    (events : List (Nat × Nat))
    (hid : firstId < numPlugins + 1)
    (hids : ∀ e ∈ events, e.1 < numPlugins + 1)
    (hchain : List.Chain (fun a b => a.2 ≤ b.2) (firstId, t0) events)
    (hT : (events.getLast?.getD (firstId, t0)).2 ≤ T) :
    (taskTimerForRun numPlugins).numTasks = numPlugins + 1
    ∧ hostTaskId (taskTimerForRun numPlugins) = numPlugins
    ∧ (stopTiming (runTimer (startTimingTask (taskTimerForRun numPlugins)
        firstId t0) events) T).numTasks = numPlugins + 1
    ∧ totalProcessingTime (stopTiming (runTimer (startTimingTask
        (taskTimerForRun numPlugins) firstId t0) events) T) = T - t0 := by
  have hstart : startTimingTask (taskTimerForRun numPlugins) firstId t0
      = ⟨numPlugins + 1, List.replicate (numPlugins + 1) 0,
         some (firstId, t0)⟩ := rfl
  have hlen1 : (startTimingTask (taskTimerForRun numPlugins) firstId
      t0).totalTaskTimes.length = numPlugins + 1 := by
    rw [hstart]
    exact List.length_replicate _ _
  obtain ⟨c1, c2, c3, c4, c5, c6⟩ := runTimer_spec events
    (startTimingTask (taskTimerForRun numPlugins) firstId t0) firstId t0
    (by rw [hstart]) (by rw [hlen1]; exact hid)
    (fun e he => by rw [hlen1]; exact hids e he) hchain
  rcases hp : events.getLast?.getD (firstId, t0) with ⟨lid, lt⟩
  rw [hp] at c1 c2 c3 c6 hT
  have hstop : stopTiming (runTimer (startTimingTask
      (taskTimerForRun numPlugins) firstId t0) events) T
      = { runTimer (startTimingTask (taskTimerForRun numPlugins) firstId t0)
            events with
          totalTaskTimes := addTime (runTimer (startTimingTask
            (taskTimerForRun numPlugins) firstId t0)
              events).totalTaskTimes lid (T - lt),
          currentTask := none } := by
    simp [stopTiming, c1]
  have hsum0 : (startTimingTask (taskTimerForRun numPlugins) firstId
      t0).totalTaskTimes.sum = 0 := by
    rw [hstart]
    simp
  have hnum1 : (startTimingTask (taskTimerForRun numPlugins) firstId
      t0).numTasks = numPlugins + 1 := by
    rw [hstart]
  refine ⟨rfl, rfl, ?_, ?_⟩
  · rw [hstop]
    show (runTimer (startTimingTask (taskTimerForRun numPlugins) firstId t0)
      events).numTasks = numPlugins + 1
    rw [c5, hnum1]
  · rw [hstop]
    show (addTime (runTimer (startTimingTask (taskTimerForRun numPlugins)
      firstId t0) events).totalTaskTimes lid (T - lt)).sum = T - t0
    rw [addTime_sum _ _ _ (by rw [c4]; rw [hlen1] at c3 ⊢; exact c3)]
    rw [c6, hsum0]
    simp only [] at c2
    omega

/-- C7 witness: two plugins' worth of slots is 2 + 1; events at times 0, 5
and 7 closed at time 10 account for the full 10 units. -/
theorem c7_witness :
    (taskTimerForRun 1).numTasks = 1 + 1
    ∧ hostTaskId (taskTimerForRun 1) = 1
    ∧ (stopTiming (runTimer (startTimingTask (taskTimerForRun 1) 1 0)
        [(0, 5), (1, 7)]) 10).numTasks = 1 + 1
    ∧ totalProcessingTime (stopTiming (runTimer (startTimingTask
        (taskTimerForRun 1) 1 0) [(0, 5), (1, 7)]) 10) = 10 - 0 :=
  c7_task_timer_exact_sum 1 1 0 10 [(0, 5), (1, 7)] (by decide)
    (by decide)
    (List.Chain.cons (by decide) (List.Chain.cons (by decide)
      List.Chain.nil))
    (by decide)

end MrsWatson
